import Mathlib

/-!
Verification of the RAG pipeline of `simple-rag-ai-agent`.

The backend consists of `backend/main.py` (the `/ingest` and `/chat`
operations over process-global state `index`, `chunks` and the two
persisted files `index.faiss` / `chunks.json`) and
`backend/rag/rag_answer.py` (`embed_query`, `retrieve`,
`generate_answer`).  The collaborating modules `rag/pdf_to_text.py`,
`rag/chunking.py` and `rag/embed_store.py` are not part of the sources;
the definitions for those are modelled from the specification and are
marked as such.

External collaborators (the OpenAI provider, the faiss search routine,
the square root used inside `faiss.normalize_L2`) are passed in as
fields of an `Env` record, so every theorem quantifying over `Env`
holds for every possible provider behaviour.  Python exceptions are
modelled with `Except PyErr`; Python strings with Lean `String` (for
chunking, with `List Char`, i.e. the sequence of code points);
embedding vectors with `List ℚ` — the exact value of the square root
computed by `faiss.normalize_L2` is abstracted as the `sqrtQ` field of
the environment, constrained in theorems by the hypotheses
`sqrtQ x ^ 2 = x`, `0 < sqrtQ x` that characterise it over the reals.
-/

deriving instance DecidableEq for Except

/-- Python exception values that flow through the pipeline:
`openAI m` models `openai.OpenAIError` with message `m`,
`indexError` a list `IndexError`, `other m` any other `Exception`. -/
inductive PyErr where
  | openAI (msg : String)
  | indexError
  | other (msg : String)
deriving DecidableEq, Repr

/-- The `str(e)` rendering of a modelled exception. -/
def PyErr.str : PyErr → String
  | .openAI m => m
  | .indexError => "list index out of range"
  | .other m => m

/-- A `fastapi.HTTPException(status_code, detail)`. -/
structure HTTPExc where
  status : Nat
  detail : String
deriving DecidableEq, Repr

/-- Embedding vectors (`numpy` float arrays) are modelled as rational
vectors. -/
abbrev Vec := List ℚ

/-- The sum of squares of a vector: the square of its L2 norm. -/
def sumSq (v : Vec) : ℚ := (v.map (fun x => x * x)).sum

/-- A faiss index: the ordered collection of vectors it stores. -/
structure FIndex where
  vectors : List Vec
deriving DecidableEq, Repr

/-- The number of vectors stored in the index (`index.ntotal`). -/
def FIndex.ntotal (ix : FIndex) : Nat := ix.vectors.length

/-- A chat-completion message (`{"role": ..., "content": ...}`). -/
structure Message where
  role : String
  content : String
deriving DecidableEq, Repr

/-- The two persisted file slots: `index.faiss` (the vectors of the
saved index) and `chunks.json` (the saved chunk texts); `none` means
the file does not exist. -/
structure Disk where
  indexFile : Option (List Vec)
  metaFile : Option (List String)
deriving DecidableEq, Repr

/-- The process-global state of `backend/main.py`: the module-level
`index` and `chunks` variables plus the data directory. -/
structure ServerState where
  index : Option FIndex
  chunks : Option (List String)
  disk : Disk
deriving DecidableEq, Repr

/-- The external collaborators of the pipeline. -/
structure Env where
  /-- The OpenAI embeddings endpoint for a single input text, as used
  by `embed_query` (`client.embeddings.create(..., input=[query])`). -/
  providerEmbed : String → Except PyErr Vec
  /-- The square root used inside `faiss.normalize_L2`; theorems
  constrain it by `sqrtQ x ^ 2 = x` at the point of use. -/
  sqrtQ : ℚ → ℚ
  /-- The call `index.search(qvec, k)` for the single query row `qvec`:
  returns the row of scores and the row of ids. -/
  search : FIndex → Vec → Nat → List ℚ × List Int
  /-- The OpenAI chat-completions endpoint. -/
  complete : List Message → Except PyErr String
  /-- The call `pdf_to_text(PDF_PATH)` — `rag/pdf_to_text.py` is not among the
  sources; modelled from the spec as an extraction step that returns
  the document text or raises an extraction error. -/
  pdf_to_text : Except PyErr String
  /-- The embedding client used by `build_and_save_index` for the full
  chunk list — `rag/embed_store.py` is not among the sources; modelled
  from the spec (§4.3) as one call returning one vector per input text
  or raising a provider error, all-or-nothing. -/
  embedAll : List String → Except PyErr (List Vec)
  /-- The chunk size passed by `chunk_text`'s defaults (characters). -/
  chunkSize : Nat
  /-- The chunk overlap passed by `chunk_text`'s defaults. -/
  chunkOverlap : Nat

/-- Python list indexing `xs[i]` for a possibly negative `Int` index:
`some` of the element, or `none` when the access raises `IndexError`. -/
def pyGet (xs : List String) (i : Int) : Option String :=
  if 0 ≤ i then xs.get? i.toNat
  else if (-i) ≤ (xs.length : Int) then xs.get? (xs.length - (-i).toNat)
  else none

/-- The routine `faiss.normalize_L2` on a single row: divide every entry by the
(square root of the) sum of squares, the square root being supplied by
the environment. -/
def normalize_L2 (sqrtQ : ℚ → ℚ) (v : Vec) : Vec :=
  v.map (fun x => x / sqrtQ (sumSq v))

/-- The function `embed_query` from `rag/rag_answer.py`: embeds the query via the
provider, L2-normalizes the vector, and re-raises a provider error
wrapped as `OpenAIError("Failed to generate embedding: " + str(e))`. -/
def embed_query (env : Env) (query : String) : Except PyErr Vec :=
  match env.providerEmbed query with
  | .ok v => .ok (normalize_L2 env.sqrtQ v)
  | .error (.openAI m) => .error (.openAI ("Failed to generate embedding: " ++ m))
  | .error e => .error e

/-- The `for i in ids[0]: if i != -1: results.append(chunks[i])` loop
of `retrieve`, with `acc` the `results` accumulator; an out-of-range
access raises, modelled as `.error .indexError`. -/
def retrieveLoop (chunks : List String) : List Int → List String → Except PyErr (List String)
  | [], acc => .ok acc
  | i :: rest, acc =>
    if i = -1 then retrieveLoop chunks rest acc
    else
      match pyGet chunks i with
      | some c => retrieveLoop chunks rest (acc ++ [c])
      | none => .error .indexError

/-- The function `retrieve(query, index, chunks, k=4)` from `rag/rag_answer.py`. -/
def retrieve (env : Env) (query : String) (index : FIndex)
    (chunks : List String) (k : Nat := 4) : Except PyErr (List String) :=
  match embed_query env query with
  | .error e => .error e
  | .ok qvec => retrieveLoop chunks (env.search index qvec k).2 []

/-- The message list `generate_answer` sends to the completion model:
the fixed system instruction and one user message embedding the context
(the retrieved chunks joined by `"\n\n"`) and the question. -/
def generate_answer_messages (user_question : String)
    (retrieved_chunks : List String) : List Message :=
  let context := String.intercalate "\n\n" retrieved_chunks
  [⟨"system",
    "You are an Insurance Agency Customer Care assistant. " ++
    "Use only the provided context to answer. " ++
    "If not found, say you don't have it and offer human support."⟩,
   ⟨"user", "Context:\n" ++ context ++ "\n\nQuestion:\n" ++ user_question⟩]

/-- The function `generate_answer` from `rag/rag_answer.py`: sends the messages to
the completion provider and re-raises a provider error wrapped as
`OpenAIError("Failed to generate answer: " + str(e))`. -/
def generate_answer (complete : List Message → Except PyErr String)
    (user_question : String) (retrieved_chunks : List String) :
    Except PyErr String :=
  match complete (generate_answer_messages user_question retrieved_chunks) with
  | .ok r => .ok r
  | .error (.openAI m) => .error (.openAI ("Failed to generate answer: " ++ m))
  | .error e => .error e

/-- Modelled from the spec: the recursion of `chunk_text`
(`rag/chunking.py` is not among the sources).  Spec §4.2: chunks cover
the input without gaps, chunk `n+1` begins at `end(chunk n) − overlap`,
trailing text shorter than the maximum size forms the final chunk
as-is, empty input yields an empty sequence.  `fuel` is a structural
bound on the recursion depth (any `fuel ≥ length` gives the same
result); the `overlap < size` precondition of §4.2 guards the
recursive case. -/
def chunkGo (size overlap : Nat) : Nat → List Char → List (List Char)
  | 0, _ => []
  | fuel + 1, s =>
    if s.length = 0 then []
    else if s.length ≤ size then [s]
    else if overlap < size then
      s.take size :: chunkGo size overlap fuel (s.drop (size - overlap))
    else [s]

/-- Modelled from the spec: `chunk_text` on a sequence of characters
(`rag/chunking.py` is not among the sources). -/
def chunk_text (size overlap : Nat) (s : List Char) : List (List Char) :=
  chunkGo size overlap s.length s

/-- Modelled from the spec: `chunk_text` on a Python string
(`rag/chunking.py` is not among the sources). -/
def chunk_textS (size overlap : Nat) (s : String) : List String :=
  (chunk_text size overlap s.data).map (fun c => ⟨c⟩)

/-- Modelled from the spec (§4.4): `build_and_save_index(chunks,
index_path, meta_path)` from `rag/embed_store.py`, which is not among
the sources.  Embeds all chunk texts in original order via the
embedding client, builds the index over the resulting vectors, and
persists the search structure and the ordered chunk texts to the two
file slots, replacing them wholesale; a provider error aborts the call
before anything is written. -/
def build_and_save_index (env : Env) (chunks : List String) :
    Except PyErr Disk :=
  match env.embedAll chunks with
  | .error e => .error e
  | .ok vecs => .ok { indexFile := some vecs, metaFile := some chunks }

/-- Modelled from the spec (§4.4): `load_index(index_path, meta_path)`
from `rag/embed_store.py`, which is not among the sources.
Reconstructs the index and the chunk store from disk; fails with a
not-found / corruption error if either file is missing or the two are
inconsistent in length. -/
def load_index (disk : Disk) : Except PyErr (FIndex × List String) :=
  match disk.indexFile, disk.metaFile with
  | some vecs, some cs =>
    if vecs.length = cs.length then .ok (⟨vecs⟩, cs)
    else .error (.other "index and chunk store are inconsistent in length")
  | _, _ => .error (.other "index files not found")

/-- The response of `/ingest`: the success body (its chunk count) or a
raised `HTTPException`. -/
inductive IngestResult where
  | ok (nchunks : Nat)
  | httpError (e : HTTPExc)
deriving DecidableEq, Repr

/-- The two `except` clauses of `ingest` in `backend/main.py`. -/
def ingestWrap : PyErr → HTTPExc
  | .openAI m => ⟨500, "OpenAI API error: " ++ m⟩
  | e => ⟨500, "Error during ingestion: " ++ e.str⟩

/-- The operation `ingest()` from `backend/main.py`, acting on the process-global
state: extract, chunk (assigning the global `chunks` at once), build
and save, then reload; any exception is wrapped by `ingestWrap`. -/
def ingest (env : Env) (st : ServerState) : IngestResult × ServerState :=
  match env.pdf_to_text with
  | .error e => (.httpError (ingestWrap e), st)
  | .ok text =>
    let newChunks := chunk_textS env.chunkSize env.chunkOverlap text
    let st1 := { st with chunks := some newChunks }
    match build_and_save_index env newChunks with
    | .error e => (.httpError (ingestWrap e), st1)
    | .ok disk2 =>
      let st2 := { st1 with disk := disk2 }
      match load_index disk2 with
      | .error e => (.httpError (ingestWrap e), st2)
      | .ok (ix, cs) =>
        (.ok cs.length, { st2 with index := some ix, chunks := some cs })

/-- The response of `/chat`: the answer body or a raised
`HTTPException`. -/
inductive ChatResult where
  | answer (s : String)
  | httpError (e : HTTPExc)
deriving DecidableEq, Repr

/-- The two `except` clauses of `chat` in `backend/main.py`. -/
def chatWrap : PyErr → HTTPExc
  | .openAI m => ⟨500, "OpenAI API error: " ++ m⟩
  | e => ⟨500, "Error processing request: " ++ e.str⟩

/-- The retrieval-and-answer tail of `chat`, once `index` and `chunks`
are set: `hits = retrieve(message, index, chunks)` then
`generate_answer(message, hits)`. -/
def chatCore (env : Env) (message : String) (ix : FIndex)
    (cs : List String) (st : ServerState) : ChatResult × ServerState :=
  match retrieve env message ix cs with
  | .error e => (.httpError (chatWrap e), st)
  | .ok hits =>
    match generate_answer env.complete message hits with
    | .error e => (.httpError (chatWrap e), st)
    | .ok ans => (.answer ans, st)

/-- The operation `chat(payload)` from `backend/main.py`: if the in-memory `index`
or `chunks` is unset, load from disk when both persisted files exist,
otherwise return the not-ingested notice; then retrieve and answer. -/
def chat (env : Env) (st : ServerState) (message : String) :
    ChatResult × ServerState :=
  match st.index, st.chunks with
  | some ix, some cs => chatCore env message ix cs st
  | _, _ =>
    if st.disk.indexFile.isSome ∧ st.disk.metaFile.isSome then
      match load_index st.disk with
      | .error e => (.httpError (chatWrap e), st)
      | .ok (ix, cs) =>
        chatCore env message ix cs
          { st with index := some ix, chunks := some cs }
    else (.answer "Knowledge base not ingested yet. Call /ingest first.", st)

/-! ### Retrieval lemmas -/

/-- Nonnegative indexing: for a nonnegative id, `xs[i]` is plain list
lookup. -/
theorem pyGet_of_nonneg (xs : List String) (i : Int) (h0 : 0 ≤ i) :
    pyGet xs i = xs.get? i.toNat := by
  simp [pyGet, h0]

/-- A successful `pyGet` yields an element of the chunk store. -/
theorem pyGet_mem (xs : List String) (i : Int) (c : String)
    (h : pyGet xs i = some c) : c ∈ xs := by
  unfold pyGet at h
  split at h
  · exact List.get?_mem h
  · split at h
    · exact List.get?_mem h
    · exact absurd h (by simp)

/-- Under the faiss contract (every returned id is the sentinel `-1`
or a valid position), the retrieval loop never raises and returns the
in-order image of the non-sentinel ids through the chunk store. -/
theorem retrieveLoop_ok_of_valid (cs : List String) (ids : List Int)
    (hvalid : ∀ i ∈ ids, i = -1 ∨ (0 ≤ i ∧ i.toNat < cs.length)) :
    ∀ acc, retrieveLoop cs ids acc =
      .ok (acc ++ (ids.filter (fun i => i ≠ -1)).filterMap (pyGet cs)) := by
  induction ids with
  | nil => intro acc; simp [retrieveLoop]
  | cons i rest ih =>
    intro acc
    have hi := hvalid i (by simp)
    have hrest : ∀ j ∈ rest, j = -1 ∨ (0 ≤ j ∧ j.toNat < cs.length) :=
      fun j hj => hvalid j (by simp [hj])
    rcases hi with hi | ⟨h0, hlt⟩
    · subst hi
      simp [retrieveLoop, ih hrest]
    · by_cases hne : i = -1
      · simp [retrieveLoop, hne, ih hrest]
      · obtain ⟨c, hc⟩ : ∃ c, pyGet cs i = some c := by
          rw [pyGet_of_nonneg cs i h0]
          exact List.get?_eq_get hlt ▸ ⟨_, rfl⟩
        simp [retrieveLoop, hne, hc, ih hrest, List.filter_cons,
          List.filterMap_cons]

/-- A successful retrieval loop run is the in-order image of the
non-sentinel ids through the chunk store, appended to the
accumulator. -/
theorem retrieveLoop_ok_eq (cs : List String) :
    ∀ (ids : List Int) (acc rs : List String),
      retrieveLoop cs ids acc = .ok rs →
      rs = acc ++ (ids.filter (fun i => i ≠ -1)).filterMap (pyGet cs) := by
  intro ids
  induction ids with
  | nil => intro acc rs h; simp [retrieveLoop] at h; simp [h.symm]
  | cons i rest ih =>
    intro acc rs h
    by_cases hne : i = -1
    · subst hne
      simp [retrieveLoop] at h
      simpa using ih acc rs h
    · simp [retrieveLoop, hne] at h
      rcases hget : pyGet cs i with _ | c
      · rw [hget] at h; exact absurd h (by simp)
      · rw [hget] at h
        have := ih (acc ++ [c]) rs h
        simp [List.filter_cons, List.filterMap_cons, hne, hget, this]

/-! ### Claims C2, C3, C9: the retriever -/

/-- A concrete environment used to witness the retrieval theorems:
the provider embeds every text as `[1]`, the square root is exact on
the values that occur, the index search returns the id row
`[1, -1, 0]` and the completion model always answers. -/
def testEnv : Env where
  providerEmbed := fun _ => .ok [1]
  sqrtQ := fun x => if x = 1 then 1 else 0
  search := fun _ _ _ => ([], [1, -1, 0])
  complete := fun _ => .ok "All good."
  pdf_to_text := .ok "hello"
  embedAll := fun l => .ok (l.map (fun _ => [1]))
  chunkSize := 10
  chunkOverlap := 2

/-- C2: for every query, index and chunk store, `retrieve` maps each
position returned by the nearest-neighbor search back to its chunk
text via the parallel chunk store (`pyGet`), skips the sentinel `-1`
id returned when fewer than `k` neighbors exist, and — under the faiss
contract that every returned id is either the sentinel or a valid
position — never fails by indexing the chunk store out of bounds: the
result is `.ok`, never the `IndexError` branch. -/
theorem retrieve_maps_positions_safely (env : Env) (q : String)
    (ix : FIndex) (cs : List String) (k : Nat) (qvec : Vec)
    (hq : embed_query env q = .ok qvec)
    (hvalid : ∀ i ∈ (env.search ix qvec k).2,
      i = -1 ∨ (0 ≤ i ∧ i.toNat < cs.length)) :
    retrieve env q ix cs k =
      .ok (((env.search ix qvec k).2.filter (fun i => i ≠ -1)).filterMap
        (pyGet cs)) := by
  unfold retrieve
  rw [hq]
  exact (retrieveLoop_ok_of_valid cs _ hvalid []).trans (by simp)

/-- Witness for C2: in the concrete environment the ids `[1, -1, 0]`
against the chunk store `["a", "b"]` retrieve `["b", "a"]`. -/
theorem retrieve_maps_positions_safely_witness :
    retrieve testEnv "q" ⟨[[1], [1]]⟩ ["a", "b"] 3 = .ok ["b", "a"] := by
  have hq : embed_query testEnv "q" = .ok [1] := by
    norm_num [embed_query, testEnv, normalize_L2, sumSq]
  have h := retrieve_maps_positions_safely testEnv "q" ⟨[[1], [1]]⟩
    ["a", "b"] 3 [1] hq (by decide)
  exact h.trans (by decide)

/-- C3: a successful `retrieve` with parameter `k` (defaulting to 4)
returns at most `k` chunk texts when the search returned `k` ids,
contains only texts of the chunk store (so never a sentinel
placeholder), and returns exactly the in-order image of the
non-sentinel ids delivered by the index search — similarity-rank
order, best match first. -/
theorem retrieve_at_most_k (env : Env) (q : String) (ix : FIndex)
    (cs : List String) (k : Nat) (qvec : Vec) (rs : List String)
    (hq : embed_query env q = .ok qvec)
    (hk : ((env.search ix qvec k).2).length = k)
    (hr : retrieve env q ix cs k = .ok rs) :
    rs.length ≤ k ∧ (∀ r ∈ rs, r ∈ cs) ∧
    rs = (((env.search ix qvec k).2).filter (fun i => i ≠ -1)).filterMap
      (pyGet cs) ∧
    retrieve env q ix cs = retrieve env q ix cs 4 := by
  unfold retrieve at hr
  rw [hq] at hr
  have heq := retrieveLoop_ok_eq cs _ [] rs hr
  simp only [List.nil_append] at heq
  refine ⟨?_, ?_, heq, rfl⟩
  · calc rs.length
        = (((env.search ix qvec k).2.filter (fun i => i ≠ -1)).filterMap
            (pyGet cs)).length := by rw [heq]
      _ ≤ ((env.search ix qvec k).2.filter (fun i => i ≠ -1)).length :=
            List.length_filterMap_le _ _
      _ ≤ ((env.search ix qvec k).2).length := List.length_filter_le _ _
      _ = k := hk
  · intro r hmem
    rw [heq] at hmem
    obtain ⟨i, _, hpy⟩ := List.mem_filterMap.mp hmem
    exact pyGet_mem cs i r hpy

/-- Witness for C3: the retrieval of the C2 witness returns at most 3
chunks. -/
theorem retrieve_at_most_k_witness :
    (["b", "a"] : List String).length ≤ 3 := by
  have hq : embed_query testEnv "q" = .ok [1] := by
    norm_num [embed_query, testEnv, normalize_L2, sumSq]
  have hr : retrieve testEnv "q" ⟨[[1], [1]]⟩ ["a", "b"] 3 =
      .ok ["b", "a"] := by
    simp only [retrieve, hq]
    decide
  exact (retrieve_at_most_k testEnv "q" ⟨[[1], [1]]⟩ ["a", "b"] 3 [1]
    ["b", "a"] hq (by decide) hr).1

/-- The sum of squares scales with the inverse square of the divisor. -/
theorem sumSq_map_div (v : Vec) (n : ℚ) :
    sumSq (v.map (fun x => x / n)) = sumSq v / (n * n) := by
  induction v with
  | nil => simp [sumSq]
  | cons x xs ih =>
    simp only [sumSq, List.map_cons, List.sum_cons] at ih ⊢
    have hx : (x / n) * (x / n) = x * x / (n * n) := by ring
    rw [hx, ih, div_add_div_same]

/-- A concrete environment for the normalization witness: the provider
embeds every text as `[3, 4]`, whose norm is exactly 5. -/
def envNorm : Env where
  providerEmbed := fun _ => .ok [3, 4]
  sqrtQ := fun x => if x = 25 then 5 else 0
  search := fun _ _ _ => ([], [])
  complete := fun _ => .ok "All good."
  pdf_to_text := .ok "hello"
  embedAll := fun l => .ok (l.map (fun _ => [1]))
  chunkSize := 10
  chunkOverlap := 2

/-- C9: whenever the provider returns the query embedding `v` and the
square root inside `faiss.normalize_L2` is exact and positive on
`sumSq v`, `embed_query` returns exactly the L2-normalized embedding,
that vector has unit L2 norm (`sumSq = 1`), and it is exactly the
vector `retrieve` hands to the index's nearest-neighbor search. -/
theorem retrieve_searches_normalized_query (env : Env) (q : String)
    (v : Vec) (hv : env.providerEmbed q = .ok v)
    (hsq : env.sqrtQ (sumSq v) * env.sqrtQ (sumSq v) = sumSq v)
    (hpos : 0 < env.sqrtQ (sumSq v)) :
    embed_query env q = .ok (normalize_L2 env.sqrtQ v) ∧
    sumSq (normalize_L2 env.sqrtQ v) = 1 ∧
    ∀ ix cs k, retrieve env q ix cs k =
      retrieveLoop cs ((env.search ix (normalize_L2 env.sqrtQ v) k).2) [] := by
  have h1 : embed_query env q = .ok (normalize_L2 env.sqrtQ v) := by
    simp [embed_query, hv]
  refine ⟨h1, ?_, ?_⟩
  · rw [normalize_L2, sumSq_map_div, hsq]
    exact div_self (hsq ▸ ne_of_gt (mul_pos hpos hpos))
  · intro ix cs k
    simp [retrieve, h1]

/-- Witness for C9: the embedding `[3, 4]` normalizes to
`[3/5, 4/5]`, which has unit norm. -/
theorem retrieve_searches_normalized_query_witness :
    sumSq (normalize_L2 envNorm.sqrtQ [3, 4]) = 1 :=
  (retrieve_searches_normalized_query envNorm "q" [3, 4] rfl
    (by norm_num [envNorm, sumSq]) (by norm_num [envNorm, sumSq])).2.1

/-! ### Claims C4, C5, C6: chat notices, error wrapping, prompt shape -/

/-- C4: calling `chat` while the knowledge base is Absent (no
in-memory index or chunks, no persisted files) returns the literal
not-ingested notice as a normal answer, with the state unchanged; the
statement holds for every environment, so no embedding or completion
provider call can influence it. -/
theorem chat_absent_returns_notice (env : Env) (st : ServerState)
    (m : String) (h1 : st.index = none) (h2 : st.chunks = none)
    (h3 : st.disk.indexFile = none) (h4 : st.disk.metaFile = none) :
    chat env st m =
      (.answer "Knowledge base not ingested yet. Call /ingest first.",
        st) := by
  simp [chat, h1, h2, h3, h4]

/-- Witness for C4: the notice on a concrete empty state. -/
theorem chat_absent_returns_notice_witness :
    chat testEnv ⟨none, none, ⟨none, none⟩⟩ "hi" =
      (.answer "Knowledge base not ingested yet. Call /ingest first.",
        ⟨none, none, ⟨none, none⟩⟩) :=
  chat_absent_returns_notice testEnv ⟨none, none, ⟨none, none⟩⟩ "hi"
    rfl rfl rfl rfl

/-- C5: collaborator errors are wrapped at the pipeline boundary and
surfaced: a provider `OpenAIError` during the embedding stage of
`/ingest` surfaces as an HTTP 500 whose detail carries the
`"OpenAI API error:"` marker at its head, and during `/chat` the
same marker is prepended to the stage-identifying
`"Failed to generate embedding:"` wrap added by `embed_query`; a
non-provider extraction failure surfaces with the stage-identifying
`"Error during ingestion:"` wrap; a completion-provider `OpenAIError`
during `/chat` surfaces through `generate_answer`'s stage-identifying
`"Failed to generate answer:"` wrap under the same boundary marker;
and a non-`OpenAIError` completion failure surfaces through the
boundary's generic `"Error processing request:"` wrap — in every case
the error reaches the caller rather than being swallowed. -/
theorem provider_errors_surfaced (env : Env) (st st2 : ServerState)
    (text m q mq : String) (ix : FIndex) (cs : List String)
    (hpdf : env.pdf_to_text = .ok text)
    (hembed : env.embedAll
      (chunk_textS env.chunkSize env.chunkOverlap text) =
      .error (.openAI m))
    (hix : st2.index = some ix) (hcs : st2.chunks = some cs)
    (hq : env.providerEmbed q = .error (.openAI mq)) :
    (ingest env st).1 = .httpError ⟨500, "OpenAI API error: " ++ m⟩ ∧
    (chat env st2 q).1 =
      .httpError ⟨500, "OpenAI API error: " ++
        ("Failed to generate embedding: " ++ mq)⟩ ∧
    (∀ (env2 : Env) (st3 : ServerState) (m2 : String),
      env2.pdf_to_text = .error (.other m2) →
      (ingest env2 st3).1 =
        .httpError ⟨500, "Error during ingestion: " ++ m2⟩) ∧
    (∀ (env3 : Env) (st4 : ServerState) (q3 mc : String) (ix4 : FIndex)
      (cs4 hits : List String),
      st4.index = some ix4 → st4.chunks = some cs4 →
      retrieve env3 q3 ix4 cs4 = .ok hits →
      env3.complete (generate_answer_messages q3 hits) =
        .error (.openAI mc) →
      (chat env3 st4 q3).1 =
        .httpError ⟨500, "OpenAI API error: " ++
          ("Failed to generate answer: " ++ mc)⟩) ∧
    (∀ (env3 : Env) (st4 : ServerState) (q3 mo : String) (ix4 : FIndex)
      (cs4 hits : List String),
      st4.index = some ix4 → st4.chunks = some cs4 →
      retrieve env3 q3 ix4 cs4 = .ok hits →
      env3.complete (generate_answer_messages q3 hits) =
        .error (.other mo) →
      (chat env3 st4 q3).1 =
        .httpError ⟨500, "Error processing request: " ++ mo⟩) := by
  refine ⟨?_, ?_, ?_, ?_, ?_⟩
  · simp [ingest, hpdf, build_and_save_index, hembed, ingestWrap]
  · have hemq : embed_query env q =
        .error (.openAI ("Failed to generate embedding: " ++ mq)) := by
      simp [embed_query, hq]
    simp [chat, hix, hcs, chatCore, retrieve, hemq, chatWrap]
  · intro env2 st3 m2 h
    simp [ingest, h, ingestWrap, PyErr.str]
  · intro env3 st4 q3 mc ix4 cs4 hits hix4 hcs4 hret hcomp
    have hga : generate_answer env3.complete q3 hits =
        .error (.openAI ("Failed to generate answer: " ++ mc)) := by
      simp [generate_answer, hcomp]
    simp [chat, hix4, hcs4, chatCore, hret, hga, chatWrap]
  · intro env3 st4 q3 mo ix4 cs4 hits hix4 hcs4 hret hcomp
    have hga : generate_answer env3.complete q3 hits =
        .error (.other mo) := by
      simp [generate_answer, hcomp]
    simp [chat, hix4, hcs4, chatCore, hret, hga, chatWrap, PyErr.str]

/-- A concrete environment whose provider raises an `OpenAIError` for
every call. -/
def envErr : Env where
  providerEmbed := fun _ => .error (.openAI "bad key")
  sqrtQ := fun _ => 0
  search := fun _ _ _ => ([], [])
  complete := fun _ => .ok "All good."
  pdf_to_text := .ok "hello"
  embedAll := fun _ => .error (.openAI "bad key")
  chunkSize := 10
  chunkOverlap := 2

/-- A concrete Ready server state. -/
def stReady : ServerState :=
  ⟨some ⟨[[1]]⟩, some ["c1"], ⟨some [[1]], some ["c1"]⟩⟩

/-- A concrete environment whose retrieval pipeline succeeds but whose
completion endpoint raises an `OpenAIError`. -/
def envCompErr : Env where
  providerEmbed := fun _ => .ok [1]
  sqrtQ := fun x => if x = 1 then 1 else 0
  search := fun _ _ _ => ([], [0])
  complete := fun _ => .error (.openAI "model down")
  pdf_to_text := .ok "hello"
  embedAll := fun l => .ok (l.map (fun _ => [1]))
  chunkSize := 10
  chunkOverlap := 2

/-- Witness for C5: a failing provider key during ingestion surfaces
with the `"OpenAI API error:"` marker, and a completion failure during
chat surfaces through the `"Failed to generate answer:"` wrap under
the same marker. -/
theorem provider_errors_surfaced_witness :
    (ingest envErr ⟨none, none, ⟨none, none⟩⟩).1 =
      .httpError ⟨500, "OpenAI API error: bad key"⟩ ∧
    (chat envCompErr
        ⟨some ⟨[[1]]⟩, some ["c1"], ⟨some [[1]], some ["c1"]⟩⟩ "q").1 =
      .httpError ⟨500, "OpenAI API error: " ++
        ("Failed to generate answer: " ++ "model down")⟩ := by
  constructor
  · exact (provider_errors_surfaced envErr ⟨none, none, ⟨none, none⟩⟩
      stReady "hello" "bad key" "q" "bad key" ⟨[[1]]⟩ ["c1"]
      rfl rfl rfl rfl rfl).1
  · have hret : retrieve envCompErr "q" ⟨[[1]]⟩ ["c1"] = .ok ["c1"] := by
      have hq : embed_query envCompErr "q" = .ok [1] := by
        norm_num [embed_query, envCompErr, normalize_L2, sumSq]
      simp only [retrieve, hq]
      decide
    exact (provider_errors_surfaced envErr ⟨none, none, ⟨none, none⟩⟩
      stReady "hello" "bad key" "q" "bad key" ⟨[[1]]⟩ ["c1"]
      rfl rfl rfl rfl rfl).2.2.2.1 envCompErr
      ⟨some ⟨[[1]]⟩, some ["c1"], ⟨some [[1]], some ["c1"]⟩⟩ "q"
      "model down" ⟨[[1]]⟩ ["c1"] ["c1"] rfl rfl hret rfl

/-- C6: `generate_answer` sends to the completion model exactly two
messages — its result depends only on the completion provider's value
at that message list — namely a system instruction that is one fixed
string, independent of the question and the retrieved chunks,
instructing the model to answer only from the provided context and
otherwise to say so and offer human support, plus one user message
embedding the context (the retrieved chunks joined in retrieval order
by blank lines) together with the question. -/
theorem generate_answer_fixed_messages (q : String) (cs : List String)
    (f g : List Message → Except PyErr String)
    (hfg : f (generate_answer_messages q cs) =
      g (generate_answer_messages q cs)) :
    generate_answer f q cs = generate_answer g q cs ∧
    (generate_answer_messages q cs).length = 2 ∧
    (∀ q2 cs2, (generate_answer_messages q cs).head? =
      (generate_answer_messages q2 cs2).head?) ∧
    (generate_answer_messages q cs).head? = some
      ⟨"system",
        "You are an Insurance Agency Customer Care assistant. " ++
        "Use only the provided context to answer. " ++
        "If not found, say you don't have it and offer human support."⟩ ∧
    (generate_answer_messages q cs).get? 1 = some
      ⟨"user", "Context:\n" ++ String.intercalate "\n\n" cs ++
        "\n\nQuestion:\n" ++ q⟩ := by
  refine ⟨?_, rfl, fun q2 cs2 => rfl, rfl, rfl⟩
  unfold generate_answer
  rw [hfg]

/-- Witness for C6: two distinct completion providers agreeing on the
concrete message list give the same answer; the message list has
exactly two entries. -/
theorem generate_answer_fixed_messages_witness :
    (generate_answer_messages "hi" ["a", "b"]).length = 2 :=
  (generate_answer_fixed_messages "hi" ["a", "b"]
    (fun _ => .ok "x")
    (fun ms => if ms.length = 2 then .ok "x" else .error .indexError)
    (by decide)).2.1

/-! ### Claim C1: what a failed ingestion leaves behind -/

/-- Counterexample to C1: with a Ready knowledge base holding the
chunk `"c1"` and a provider that rejects the embedding call, `/ingest`
fails — yet the in-memory chunk store has already been replaced by the
newly chunked text (`main.py` assigns the global `chunks` before
`build_and_save_index` runs), so the in-memory state is not left
untouched. -/
theorem ingest_failure_mutates_memory :
    (ingest envErr stReady).1 =
      .httpError ⟨500, "OpenAI API error: bad key"⟩ ∧
    stReady.chunks = some ["c1"] ∧
    (ingest envErr stReady).2.chunks = some ["hello"] ∧
    (ingest envErr stReady).2.chunks ≠ stReady.chunks := by decide

/-- C1 (amended): an ingestion that fails before the save completes
(at extraction or at embedding/indexing inside
`build_and_save_index`) surfaces an error and leaves the persisted
files and the in-memory index unchanged; when extraction fails the
whole state is untouched, but once chunking succeeds the in-memory
chunk store already holds the new chunks, even though the ingestion
failed. -/
theorem ingest_failure_before_save_preserves_disk_index (env : Env)
    (st : ServerState) :
    (∀ e, env.pdf_to_text = .error e →
      ingest env st = (.httpError (ingestWrap e), st)) ∧
    (∀ text e, env.pdf_to_text = .ok text →
      env.embedAll (chunk_textS env.chunkSize env.chunkOverlap text) =
        .error e →
      (ingest env st).1 = .httpError (ingestWrap e) ∧
      (ingest env st).2.disk = st.disk ∧
      (ingest env st).2.index = st.index ∧
      (ingest env st).2.chunks =
        some (chunk_textS env.chunkSize env.chunkOverlap text)) := by
  constructor
  · intro e he
    simp [ingest, he]
  · intro text e ht he
    simp [ingest, ht, build_and_save_index, he]

/-- Witness for the amended C1: the failed ingestion of the
counterexample leaves the persisted files unchanged. -/
theorem ingest_failure_before_save_preserves_disk_index_witness :
    (ingest envErr stReady).2.disk = stReady.disk :=
  ((ingest_failure_before_save_preserves_disk_index envErr stReady).2
    "hello" (.openAI "bad key") rfl rfl).2.1

/-! ### Claim C10: the disk fallback of `chat` -/

/-- A successful `generate_answer` is a successful completion call on
exactly the generated message list. -/
theorem generate_answer_ok_from_complete
    (f : List Message → Except PyErr String) (q : String)
    (cs : List String) (s : String)
    (h : generate_answer f q cs = .ok s) :
    f (generate_answer_messages q cs) = .ok s := by
  unfold generate_answer at h
  rcases hf : f (generate_answer_messages q cs) with e | r
  · rw [hf] at h
    rcases e with m | _ | m <;> simp at h
  · rw [hf] at h
    simpa using h

/-- An answer produced by the retrieval-and-answer tail of `chat` was
returned by the completion provider. -/
theorem chatCore_answer_from_complete (env : Env) (m : String)
    (ix : FIndex) (cs : List String) (st : ServerState) (s : String)
    (h : (chatCore env m ix cs st).1 = .answer s) :
    ∃ ms, env.complete ms = .ok s := by
  unfold chatCore at h
  rcases hr : retrieve env m ix cs with e | hits <;> rw [hr] at h
  · simp at h
  · dsimp only at h
    rcases hg : generate_answer env.complete m hits with e | ans <;>
      rw [hg] at h
    · simp at h
    · simp at h
      subst h
      exact ⟨_, generate_answer_ok_from_complete _ _ _ _ hg⟩

/-- A successful load pins down both persisted files and their common
length. -/
theorem load_index_ok (disk : Disk) (ix : FIndex) (cs : List String)
    (h : load_index disk = .ok (ix, cs)) :
    disk.indexFile = some ix.vectors ∧ disk.metaFile = some cs ∧
    ix.vectors.length = cs.length := by
  unfold load_index at h
  rcases h1 : disk.indexFile with _ | vecs <;> rw [h1] at h
  · simp at h
  · rcases h2 : disk.metaFile with _ | cs2 <;> rw [h2] at h
    · simp at h
    · dsimp only at h
      split at h
      · simp at h
        obtain ⟨hix, hcs⟩ := h
        subst hix
        subst hcs
        simp_all
      · simp at h

/-- C10: when the in-memory index or chunk store is unset but both
persisted files load, `chat` behaves exactly as if the loaded pair had
already been in memory (it loads, then answers normally); and —
provided the completion provider never happens to utter the notice
itself — the not-ingested notice is returned exactly when the
in-memory state is unset and at least one of the two files is
missing. -/
theorem chat_loads_persisted_kb (env : Env) (st : ServerState)
    (m : String)
    (hcomplete : ∀ ms r, env.complete ms = .ok r →
      r ≠ "Knowledge base not ingested yet. Call /ingest first.") :
    (∀ ix cs, (st.index = none ∨ st.chunks = none) →
      load_index st.disk = .ok (ix, cs) →
      chat env st m =
        chat env { st with index := some ix, chunks := some cs } m) ∧
    ((chat env st m).1 =
        .answer "Knowledge base not ingested yet. Call /ingest first." →
      (st.index = none ∨ st.chunks = none) ∧
      (st.disk.indexFile = none ∨ st.disk.metaFile = none)) ∧
    ((st.index = none ∨ st.chunks = none) →
      (st.disk.indexFile = none ∨ st.disk.metaFile = none) →
      chat env st m =
        (.answer "Knowledge base not ingested yet. Call /ingest first.",
          st)) := by
  refine ⟨?_, ?_, ?_⟩
  · intro ix cs hunset hload
    obtain ⟨hd1, hd2, _⟩ := load_index_ok st.disk ix cs hload
    rcases hunset with h | h
    · simp [chat, h, hd1, hd2, hload]
    · rcases hI : st.index with _ | ix0 <;>
        simp [chat, hI, h, hd1, hd2, hload]
  · intro hans
    rcases hI : st.index with _ | ix0
    · refine ⟨Or.inl rfl, ?_⟩
      by_contra hfiles
      push_neg at hfiles
      obtain ⟨hf1, hf2⟩ := hfiles
      rcases h1 : st.disk.indexFile with _ | vecs
      · exact hf1 h1
      rcases h2 : st.disk.metaFile with _ | cs2
      · exact hf2 h2
      rcases hload : load_index st.disk with e | p
      · simp [chat, hI, h1, h2, hload] at hans
      · obtain ⟨ix, cs⟩ := p
        simp only [chat, hI, h1, h2, hload] at hans
        simp at hans
        obtain ⟨ms, hms⟩ := chatCore_answer_from_complete _ _ _ _ _ _ hans
        exact hcomplete ms _ hms rfl
    · rcases hC : st.chunks with _ | cs0
      · refine ⟨Or.inr rfl, ?_⟩
        by_contra hfiles
        push_neg at hfiles
        obtain ⟨hf1, hf2⟩ := hfiles
        rcases h1 : st.disk.indexFile with _ | vecs
        · exact hf1 h1
        rcases h2 : st.disk.metaFile with _ | cs2
        · exact hf2 h2
        rcases hload : load_index st.disk with e | p
        · simp [chat, hI, hC, h1, h2, hload] at hans
        · obtain ⟨ix, cs⟩ := p
          simp only [chat, hI, hC, h1, h2, hload] at hans
          simp at hans
          obtain ⟨ms, hms⟩ := chatCore_answer_from_complete _ _ _ _ _ _ hans
          exact hcomplete ms _ hms rfl
      · exfalso
        have hcc : (chatCore env m ix0 cs0 st).1 =
            .answer "Knowledge base not ingested yet. Call /ingest first." := by
          simpa [chat, hI, hC] using hans
        obtain ⟨ms, hms⟩ := chatCore_answer_from_complete _ _ _ _ _ _ hcc
        exact hcomplete ms _ hms rfl
  · intro hunset hfiles
    rcases hunset with h | h
    · rcases hfiles with h2 | h2 <;> simp [chat, h, h2]
    · rcases hI : st.index with _ | ix0 <;>
        rcases hfiles with h2 | h2 <;> simp [chat, hI, h, h2]

/-- Witness for C10: with the in-memory state unset and both files
present and consistent, `chat` behaves as if the loaded pair had been
in memory. -/
theorem chat_loads_persisted_kb_witness :
    chat testEnv ⟨none, none, ⟨some [[1]], some ["c1"]⟩⟩ "hi" =
      chat testEnv
        ⟨some ⟨[[1]]⟩, some ["c1"], ⟨some [[1]], some ["c1"]⟩⟩ "hi" := by
  have hc : ∀ ms r, testEnv.complete ms = .ok r →
      r ≠ "Knowledge base not ingested yet. Call /ingest first." := by
    intro ms r hr
    have h2 : (Except.ok "All good." : Except PyErr String) = .ok r := hr
    rw [← Except.ok.inj h2]
    decide
  exact (chat_loads_persisted_kb testEnv
    ⟨none, none, ⟨some [[1]], some ["c1"]⟩⟩ "hi" hc).1 ⟨[[1]]⟩ ["c1"]
    (Or.inl rfl) (by decide)

/-! ### Claim C8: the index/chunk-store length invariant -/

/-- C8: the knowledge base length invariant.  A successful load always
yields an index and chunk store of equal length; a persisted pair with
mismatched lengths is rejected at load time as corrupt; a successful
build-and-save (under the embedding contract of one vector per text)
persists files of equal length; and any successful `/ingest` leaves
the in-memory index and chunk store with equal lengths and reports
that length. -/
theorem kb_length_invariant :
    (∀ disk ix cs, load_index disk = .ok (ix, cs) →
      FIndex.ntotal ix = cs.length) ∧
    (∀ vecs cs, vecs.length ≠ cs.length →
      load_index ⟨some vecs, some cs⟩ =
        .error (.other "index and chunk store are inconsistent in length")) ∧
    (∀ env cs disk2,
      (∀ l vl, env.embedAll l = .ok vl → vl.length = l.length) →
      build_and_save_index env cs = .ok disk2 →
      disk2.metaFile = some cs ∧
      ∃ vecs, disk2.indexFile = some vecs ∧ vecs.length = cs.length) ∧
    (∀ env st n st2, ingest env st = (.ok n, st2) →
      ∃ ix cs, st2.index = some ix ∧ st2.chunks = some cs ∧
        FIndex.ntotal ix = cs.length ∧ n = cs.length) := by
  refine ⟨?_, ?_, ?_, ?_⟩
  · intro disk ix cs h
    exact (load_index_ok disk ix cs h).2.2
  · intro vecs cs h
    simp [load_index, h]
  · intro env cs disk2 hcontract hbuild
    unfold build_and_save_index at hbuild
    rcases he : env.embedAll cs with e | vecs <;> rw [he] at hbuild
    · simp at hbuild
    · simp at hbuild
      subst hbuild
      exact ⟨rfl, vecs, rfl, hcontract cs vecs he⟩
  · intro env st n st2 h
    unfold ingest at h
    rcases hp : env.pdf_to_text with e | text <;> rw [hp] at h
    · simp at h
    · dsimp only at h
      rcases hb : build_and_save_index env
          (chunk_textS env.chunkSize env.chunkOverlap text) with e | disk2 <;>
        rw [hb] at h
      · simp at h
      · dsimp only at h
        rcases hl : load_index disk2 with e | p <;> rw [hl] at h
        · simp at h
        · obtain ⟨ix, cs⟩ := p
          dsimp only at h
          obtain ⟨h1, h2⟩ := Prod.mk.injEq .. ▸ h
          refine ⟨ix, cs, ?_, ?_, ?_, ?_⟩
          · rw [← h2]
          · rw [← h2]
          · exact (load_index_ok disk2 ix cs hl).2.2
          · exact (IngestResult.ok.inj h1).symm

/-- Witness for C8: loading a consistent persisted pair of length two
yields equal lengths. -/
theorem kb_length_invariant_witness :
    FIndex.ntotal ⟨[[1], [2]]⟩ = (["a", "b"] : List String).length :=
  kb_length_invariant.1 ⟨some [[1], [2]], some ["a", "b"]⟩ ⟨[[1], [2]]⟩
    ["a", "b"] (by decide)

/-! ### Claim C7: the chunker -/

/-- Empty input yields no chunks at any fuel. -/
theorem chunkGo_nil (size overlap fuel : Nat) :
    chunkGo size overlap fuel [] = [] := by
  cases fuel <;> simp [chunkGo]

/-- Nonempty input no longer than the maximum size is a single chunk. -/
theorem chunkGo_short (size overlap fuel : Nat) (s : List Char)
    (h0 : s ≠ []) (h1 : s.length ≤ size) :
    chunkGo size overlap (fuel + 1) s = [s] := by
  have hz : s.length ≠ 0 := fun h => h0 (List.length_eq_zero.mp h)
  simp [chunkGo, hz, h1]

/-- Input longer than the maximum size starts with a full chunk and
recurses on the input minus `size − overlap` characters. -/
theorem chunkGo_long (size overlap fuel : Nat) (s : List Char)
    (h1 : size < s.length) (h2 : overlap < size) :
    chunkGo size overlap (fuel + 1) s =
      s.take size :: chunkGo size overlap fuel (s.drop (size - overlap)) := by
  have hz : s.length ≠ 0 := by omega
  simp [chunkGo, hz, h2, Nat.not_le.mpr h1]

/-- Dropping the leading overlap of every chunk and concatenating
yields the input minus its leading overlap. -/
theorem chunkGo_flatten_drop (size overlap : Nat) (h2 : overlap < size) :
    ∀ (fuel : Nat) (s : List Char), s.length ≤ fuel →
      ((chunkGo size overlap fuel s).map (fun d => d.drop overlap)).flatten
        = s.drop overlap := by
  intro fuel
  induction fuel with
  | zero =>
    intro s hs
    have h0 : s = [] := List.length_eq_zero.mp (Nat.le_zero.mp hs)
    subst h0
    simp [chunkGo_nil]
  | succ fuel ih =>
    intro s hs
    by_cases h0 : s = []
    · subst h0; simp [chunkGo_nil]
    · by_cases h1 : s.length ≤ size
      · rw [chunkGo_short size overlap fuel s h0 h1]
        simp
      · push_neg at h1
        rw [chunkGo_long size overlap fuel s h1 h2]
        have hlen : (s.drop (size - overlap)).length ≤ fuel := by
          rw [List.length_drop]; omega
        rw [List.map_cons, List.flatten_cons, ih _ hlen, List.drop_drop]
        have ha : size - overlap + overlap = size := by omega
        rw [ha, List.drop_take]
        have hb : s.drop size = (s.drop overlap).drop (size - overlap) := by
          rw [List.drop_drop]
          congr 1
          omega
        rw [hb]
        exact List.take_append_drop _ _

/-- Concatenating the chunk spans, removing the overlaps: the first
chunk in full, every later chunk minus its leading `overlap`
characters. -/
def chunkJoin (overlap : Nat) : List (List Char) → List Char
  | [] => []
  | c :: rest => c ++ (rest.map (fun d => d.drop overlap)).flatten

/-- Reconstruction: concatenating the chunks with overlaps removed
recovers the input exactly. -/
theorem chunkGo_chunkJoin (size overlap : Nat) (h2 : overlap < size)
    (fuel : Nat) (s : List Char) (hf : s.length ≤ fuel) :
    chunkJoin overlap (chunkGo size overlap fuel s) = s := by
  cases fuel with
  | zero =>
    have h0 : s = [] := List.length_eq_zero.mp (Nat.le_zero.mp hf)
    subst h0
    simp [chunkGo_nil, chunkJoin]
  | succ fuel =>
    by_cases h0 : s = []
    · subst h0; simp [chunkGo_nil, chunkJoin]
    · by_cases h1 : s.length ≤ size
      · rw [chunkGo_short size overlap fuel s h0 h1]
        simp [chunkJoin]
      · push_neg at h1
        rw [chunkGo_long size overlap fuel s h1 h2]
        have hlen : (s.drop (size - overlap)).length ≤ fuel := by
          rw [List.length_drop]; omega
        simp only [chunkJoin]
        rw [chunkGo_flatten_drop size overlap h2 fuel _ hlen,
          List.drop_drop]
        have ha : size - overlap + overlap = size := by omega
        rw [ha]
        exact List.take_append_drop _ _

/-- Every chunk is at most `size` characters long. -/
theorem chunkGo_length_le (size overlap : Nat) (h2 : overlap < size) :
    ∀ (fuel : Nat) (s : List Char), s.length ≤ fuel →
      ∀ c ∈ chunkGo size overlap fuel s, c.length ≤ size := by
  intro fuel
  induction fuel with
  | zero =>
    intro s hs c hc
    have h0 : s = [] := List.length_eq_zero.mp (Nat.le_zero.mp hs)
    subst h0
    rw [chunkGo_nil] at hc
    simp at hc
  | succ fuel ih =>
    intro s hs c hc
    by_cases h0 : s = []
    · subst h0; rw [chunkGo_nil] at hc; simp at hc
    · by_cases h1 : s.length ≤ size
      · rw [chunkGo_short size overlap fuel s h0 h1] at hc
        simp at hc
        subst hc
        exact h1
      · push_neg at h1
        rw [chunkGo_long size overlap fuel s h1 h2] at hc
        rcases List.mem_cons.mp hc with hc | hc
        · subst hc
          rw [List.length_take]
          omega
        · exact ih _ (by rw [List.length_drop]; omega) c hc

/-- Positional characterisation: the chunk at index `n` is the span of
the input starting at `n · (size − overlap)`, truncated to `size`. -/
theorem chunkGo_get (size overlap : Nat) (h2 : overlap < size) :
    ∀ (fuel : Nat) (s : List Char), s.length ≤ fuel →
      ∀ (n : Nat) (c : List Char),
        (chunkGo size overlap fuel s).get? n = some c →
        c = (s.drop (n * (size - overlap))).take size := by
  intro fuel
  induction fuel with
  | zero =>
    intro s hs n c hc
    have h0 : s = [] := List.length_eq_zero.mp (Nat.le_zero.mp hs)
    subst h0
    rw [chunkGo_nil] at hc
    simp at hc
  | succ fuel ih =>
    intro s hs n c hc
    by_cases h0 : s = []
    · subst h0; rw [chunkGo_nil] at hc; simp at hc
    · by_cases h1 : s.length ≤ size
      · rw [chunkGo_short size overlap fuel s h0 h1] at hc
        cases n with
        | zero =>
          simp at hc
          subst hc
          simp [List.take_of_length_le h1]
        | succ n => simp at hc
      · push_neg at h1
        rw [chunkGo_long size overlap fuel s h1 h2] at hc
        cases n with
        | zero =>
          simp at hc
          subst hc
          simp
        | succ n =>
          rw [List.get?_cons_succ] at hc
          have hr := ih _ (by rw [List.length_drop]; omega) n c hc
          rw [List.drop_drop] at hr
          have ha : size - overlap + n * (size - overlap) =
              (n + 1) * (size - overlap) := by ring
          rwa [ha] at hr

/-- The head chunk of a nonempty input is its first `size`-span. -/
theorem chunkGo_head (size overlap : Nat) (h2 : overlap < size)
    (fuel : Nat) (s : List Char) (hf : s.length ≤ fuel) (h0 : s ≠ []) :
    (chunkGo size overlap fuel s).head? = some (s.take size) := by
  cases fuel with
  | zero =>
    exact absurd (List.length_eq_zero.mp (Nat.le_zero.mp hf)) h0
  | succ fuel =>
    by_cases h1 : s.length ≤ size
    · rw [chunkGo_short size overlap fuel s h0 h1]
      simp [List.take_of_length_le h1]
    · push_neg at h1
      rw [chunkGo_long size overlap fuel s h1 h2]
      simp

/-- Consecutive chunks share exactly `overlap` characters: each
chunk's leading `overlap` characters equal its predecessor's trailing
`overlap` characters. -/
theorem chunkGo_chain (size overlap : Nat) (h2 : overlap < size) :
    ∀ (fuel : Nat) (s : List Char), s.length ≤ fuel →
      List.Chain' (fun a b => b.take overlap = a.drop (a.length - overlap))
        (chunkGo size overlap fuel s) := by
  intro fuel
  induction fuel with
  | zero =>
    intro s hs
    have h0 : s = [] := List.length_eq_zero.mp (Nat.le_zero.mp hs)
    subst h0
    rw [chunkGo_nil]
    exact List.chain'_nil
  | succ fuel ih =>
    intro s hs
    by_cases h0 : s = []
    · subst h0; rw [chunkGo_nil]; exact List.chain'_nil
    · by_cases h1 : s.length ≤ size
      · rw [chunkGo_short size overlap fuel s h0 h1]
        exact List.chain'_singleton _
      · push_neg at h1
        rw [chunkGo_long size overlap fuel s h1 h2]
        have hlen : (s.drop (size - overlap)).length ≤ fuel := by
          rw [List.length_drop]; omega
        have hne : s.drop (size - overlap) ≠ [] := by
          intro hemp
          have := congrArg List.length hemp
          rw [List.length_drop] at this
          simp at this
          omega
        refine List.chain'_cons'.mpr ⟨?_, ih _ hlen⟩
        intro b hb
        rw [chunkGo_head size overlap h2 fuel _ hlen hne] at hb
        have hb2 : b = (s.drop (size - overlap)).take size := by
          have := hb
          simp at this
          exact this.symm
        subst hb2
        rw [List.take_take, Nat.min_eq_left (le_of_lt h2),
          List.length_take, Nat.min_eq_left (le_of_lt h1),
          List.drop_take]
        congr 1
        omega

/-- Every chunk except possibly the last has length exactly `size`. -/
theorem chunkGo_get_length (size overlap : Nat) (h2 : overlap < size) :
    ∀ (fuel : Nat) (s : List Char), s.length ≤ fuel →
      ∀ (n : Nat) (c : List Char),
        (chunkGo size overlap fuel s).get? n = some c →
        n + 1 < (chunkGo size overlap fuel s).length → c.length = size := by
  intro fuel
  induction fuel with
  | zero =>
    intro s hs n c hc _
    have h0 : s = [] := List.length_eq_zero.mp (Nat.le_zero.mp hs)
    subst h0
    rw [chunkGo_nil] at hc
    simp at hc
  | succ fuel ih =>
    intro s hs n c hc hlt
    by_cases h0 : s = []
    · subst h0; rw [chunkGo_nil] at hc; simp at hc
    · by_cases h1 : s.length ≤ size
      · rw [chunkGo_short size overlap fuel s h0 h1] at hlt
        simp at hlt
      · push_neg at h1
        rw [chunkGo_long size overlap fuel s h1 h2] at hc hlt
        cases n with
        | zero =>
          simp at hc
          subst hc
          rw [List.length_take]
          omega
        | succ n =>
          rw [List.get?_cons_succ] at hc
          rw [List.length_cons] at hlt
          exact ih _ (by rw [List.length_drop]; omega) n c hc
            (by omega)

/-- C7: for `overlap < size` the chunker is deterministic and total (a
function); concatenating the chunk spans with overlaps removed
reconstructs the input exactly; every chunk is at most `size` long;
each chunk's leading `overlap` characters equal its predecessor's
trailing `overlap` characters; the chunk at index `n` is the input
span starting at `n · (size − overlap)` truncated to `size` — so, with
non-final chunks of length exactly `size`, chunk `n+1` begins at
`end(chunk n) − overlap`; and empty input yields the empty sequence. -/
theorem chunk_text_spec (size overlap : Nat) (h : overlap < size)
    (s : List Char) :
    chunkJoin overlap (chunk_text size overlap s) = s ∧
    (∀ c ∈ chunk_text size overlap s, c.length ≤ size) ∧
    List.Chain' (fun a b => b.take overlap = a.drop (a.length - overlap))
      (chunk_text size overlap s) ∧
    (∀ n c, (chunk_text size overlap s).get? n = some c →
      c = (s.drop (n * (size - overlap))).take size) ∧
    (∀ n c, (chunk_text size overlap s).get? n = some c →
      n + 1 < (chunk_text size overlap s).length → c.length = size) ∧
    chunk_text size overlap [] = [] := by
  unfold chunk_text
  exact ⟨chunkGo_chunkJoin size overlap h _ s le_rfl,
    chunkGo_length_le size overlap h _ s le_rfl,
    chunkGo_chain size overlap h _ s le_rfl,
    chunkGo_get size overlap h _ s le_rfl,
    chunkGo_get_length size overlap h _ s le_rfl,
    rfl⟩

/-- Witness for C7: chunking `"abcdef"` with size 3 and overlap 1 and
removing the overlaps reconstructs the input. -/
theorem chunk_text_spec_witness :
    chunkJoin 1 (chunk_text 3 1 "abcdef".data) = "abcdef".data :=
  (chunk_text_spec 3 1 (by decide) "abcdef".data).1
